import Mathlib

/-!
Verification of the dependency-orchestration core of the devspace repository:
the dependency graph, the bounded concurrent scheduler, and the orchestration
loop in pkg/devspace/dependency.

The graph component (file graph.go) is not among the provided sources; its
operations are modelled from the specification (sections 4.1 and 4.2) and are
cross-checked against the in-repository unit test graph_test.go, which pins the
exact traversal sequences, the cycle-error message and the pruning behaviour.
The scheduler (scheduler.go) and the orchestrator (dependency.go) are embedded
from the source.

Go machine details that the embedding abstracts: node payloads (the Dependency
struct handles to build/deploy controllers) are opaque and are not represented;
error values are represented by their message strings; the Go map used as the
node registry is represented by an association list (the registry is never
iterated, only indexed, so map iteration order is irrelevant).
-/

namespace DevspaceDep

/-- Modelled from the spec: a graph node (graph.go is not among the provided
sources).  A node is identified by a unique string ID and holds an ordered
sequence of child references and a back-reference list of parents; the opaque
dependency payload is omitted. -/
structure node where
  ID : String
  childs : List String
  parents : List String
deriving DecidableEq, Repr

/-- Modelled from the spec: the graph is a root node plus a registry mapping
ID to node.  The registry is represented as an association list. -/
structure graph where
  RootID : String
  Nodes : List (String × node)
deriving DecidableEq, Repr

/-- Modelled from the spec: create a fresh node with no edges. -/
def newNode (id : String) : node :=
  { ID := id, childs := [], parents := [] }

/-- Modelled from the spec: create a graph containing only the root node. -/
def newGraph (root : node) : graph :=
  { RootID := root.ID, Nodes := [(root.ID, root)] }

/-- Registry lookup (Go: g.Nodes[id]). -/
def graph.getNode (g : graph) (id : String) : Option node :=
  match g.Nodes.find? (fun p => p.1 == id) with
  | some p => some p.2
  | none => none

/-- Replace the registry entry for a node ID by applying f (models in-place
mutation of the pointed-to node). -/
def graph.modifyNode (g : graph) (id : String) (f : node → node) : graph :=
  { g with Nodes := g.Nodes.map (fun p => if p.1 == id then (p.1, f p.2) else p) }

/-- The ordered child list of a node (empty if the ID is not registered). -/
def graph.childsOf (g : graph) (id : String) : List String :=
  match g.getNode id with
  | some n => n.childs
  | none => []

/-- Modelled from the spec: depth-first search over child edges from fr,
returning the first discovered ordered path from fr to to_ inclusive, or none
if to_ is unreachable.  Sibling order follows child insertion order.  The fuel
argument bounds recursion depth; callers pass the number of registered nodes,
which bounds the depth of any simple path. -/
def findFirstPath (g : graph) : Nat → String → String → Option (List String)
  | 0, _, _ => none
  | fuel+1, fr, to_ =>
    if fr = to_ then some [fr]
    else
      match (g.childsOf fr).findSome? (fun c => findFirstPath g fuel c to_) with
      | some p => some (fr :: p)
      | none => none

/-- Modelled from the spec: graph errors.  notFound corresponds to the
"node not found" insertion/edge failure; cyclic is the structured cycle error
carrying the listed cycle path. -/
inductive GraphErr where
  | notFound (id : String)
  | cyclic (path : List String)
deriving DecidableEq, Repr

/-- Modelled from the spec: the cycle error message lists the cycle one ID per
line, prefixed with "Cyclic dependency found: " (the prefix line ends in a
blank before the newline, matching the expected message in graph_test.go). -/
def GraphErr.message : GraphErr → String
  | .notFound id => "Node " ++ id ++ " not found"
  | .cyclic path => "Cyclic dependency found: \n" ++ String.intercalate "\n" path

/-- Add a parent-to-child edge between two registered nodes: the parent gains a
child reference and the child gains a parent back-reference. -/
def graph.link (g : graph) (parentID childID : String) : graph :=
  (g.modifyNode parentID (fun n => { n with childs := n.childs ++ [childID] })).modifyNode
    childID (fun n => { n with parents := n.parents ++ [parentID] })

/-- Modelled from the spec: insertNodeAt(parentID, childID).  Fails when the
parent is absent; reuses an existing child node (shared subtrees); before
linking an existing child it searches for a path from the child to the parent
and fails with a cycle error listing parent followed by that path when one
exists; otherwise links and registers.  The Go function also returns the
(possibly newly created) child node pointer, which no claim refers to, so only
the updated graph is returned here. -/
def graph.insertNodeAt (g : graph) (parentID childID : String) : Except GraphErr graph :=
  match g.getNode parentID with
  | none => .error (.notFound parentID)
  | some _ =>
    match g.getNode childID with
    | some _ =>
      match findFirstPath g g.Nodes.length childID parentID with
      | some path => .error (.cyclic (parentID :: path))
      | none => .ok (g.link parentID childID)
    | none =>
      let g1 : graph := { g with Nodes := g.Nodes ++ [(childID, newNode childID)] }
      .ok (g1.link parentID childID)

/-- Modelled from the spec: addEdge links two already-existing nodes without
cycle checking and fails if either ID is absent. -/
def graph.addEdge (g : graph) (fromID toID : String) : Except GraphErr graph :=
  match g.getNode fromID with
  | none => .error (.notFound fromID)
  | some _ =>
    match g.getNode toID with
    | none => .error (.notFound toID)
    | some _ => .ok (g.link fromID toID)

/-- Modelled from the spec: removeNode detaches the node from every parent's
child list and deletes it from the registry (a full prune). -/
def graph.removeNode (g : graph) (id : String) : graph :=
  match g.getNode id with
  | none => g
  | some n =>
    let g1 := n.parents.foldl
      (fun acc p => acc.modifyNode p (fun pn => { pn with childs := pn.childs.filter (fun c => c != id) })) g
    { g1 with Nodes := g1.Nodes.filter (fun p => p.1 != id) }

/-- Modelled from the spec: the number of registered nodes excluding the root
sentinel. -/
def graph.len (g : graph) : Nat :=
  g.Nodes.length - 1

/-- Modelled from the spec: recursive pre-order search over child edges; the
node itself is visited before its children.  A node reachable through several
parents is revisited once per reachable path.  visit returns the stop flag;
the first node whose visit returns true is the result (the Go visit callback
can also return an error, which none of the orchestrator's predicates do, so
the error channel is not modelled). -/
def graph.preOrderSearch (g : graph) : Nat → String → (String → Bool) → Option String
  | 0, _, _ => none
  | fuel+1, id, visit =>
    if visit id then some id
    else (g.childsOf id).findSome? (fun c => g.preOrderSearch fuel c visit)

/-- Modelled from the spec: recursive post-order search over child edges; every
child subtree is traversed before the node itself is visited. -/
def graph.postOrderSearch (g : graph) : Nat → String → (String → Bool) → Option String
  | 0, _, _ => none
  | fuel+1, id, visit =>
    match (g.childsOf id).findSome? (fun c => g.postOrderSearch fuel c visit) with
    | some r => some r
    | none => if visit id then some id else none

/-- The full pre-order visit sequence (the sequence of nodes a non-stopping
visit callback observes, as collected by graph_test.go). -/
def graph.preOrderList (g : graph) : Nat → String → List String
  | 0, _ => []
  | fuel+1, id => id :: (g.childsOf id).flatMap (fun c => g.preOrderList fuel c)

/-- The full post-order visit sequence. -/
def graph.postOrderList (g : graph) : Nat → String → List String
  | 0, _ => []
  | fuel+1, id => ((g.childsOf id).flatMap (fun c => g.postOrderList fuel c)) ++ [id]

/-- Build a graph by a sequence of insertNodeAt calls (parentID, childID). -/
def insertSeq (g : graph) : List (String × String) → Except GraphErr graph
  | [] => .ok g
  | (p, c) :: rest =>
    match g.insertNodeAt p c with
    | .ok g1 => insertSeq g1 rest
    | .error e => .error e

/-- The shared-subtree example graph of the spec and of graph_test.go:
root -> {A, B, C}, B -> D, D -> E, C -> B, built in that insertion order
(the edge C -> B is added after B already exists). -/
def exampleGraph : graph :=
  match insertSeq (newGraph (newNode "root"))
      [("root", "A"), ("root", "B"), ("root", "C"), ("B", "D"), ("D", "E"), ("C", "B")] with
  | .ok g => g
  | .error _ => newGraph (newNode "root")

/-! ## Orchestrator (embedded from dependency.go) -/

/-- Embeds foundDependency (dependency.go): an empty filter list accepts every
dependency, otherwise the name must be listed. -/
def foundDependency (name : String) (dependencies : List String) : Bool :=
  if dependencies.length = 0 then true else dependencies.contains name

/-- Embeds skipDependency (dependency.go): true when the name is listed. -/
def skipDependency (name : String) (skipDependencies : List String) : Bool :=
  skipDependencies.contains name

/-- The parameters of one handleDependencies call: the root sentinel ID, the
include-filter and skip lists, the dependency name of each node ID (Go:
n.Dependency.Name()), and the per-node action outcome (none = success,
some msg = the action error).  Hook dispatch is an external collaborator and
is modelled as always succeeding. -/
structure OEnv where
  rootID : String
  filterDeps : List String
  skipDeps : List String
  nameOf : String → String
  action : String → Option String

/-- The mutable state handleDependencies threads through provider and work
closures: the dependency graph, the visited map, and the executed-dependencies
list.  Two trace fields record the observable effects of the work closures:
selected is the order nodes are handed out as work (each closure prints the
node's local path first), invoked is the order the per-node action is actually
called. -/
structure OState where
  g : graph
  visited : List String
  selected : List String
  executed : List String
  invoked : List String
deriving DecidableEq, Repr

/-- Embeds the performAction closure of handleDependencies (dependency.go
lines 293-358): the root node returns nil immediately; a node whose name is not
in a non-empty filter list, or is in the skip list, returns nil without
invoking the action; otherwise the action runs (hooks are modelled as
succeeding), an action error is returned (Go wraps it with the dependency name
and buffered log), and on success the dependency is appended to the
executed-dependencies list. -/
def performAction (env : OEnv) (st : OState) (n : String) : OState × Option String :=
  if n = env.rootID then (st, none)
  else if !foundDependency (env.nameOf n) env.filterDeps then (st, none)
  else if skipDependency (env.nameOf n) env.skipDeps then (st, none)
  else
    match env.action n with
    | some e => ({ st with invoked := st.invoked ++ [n] }, some e)
    | none => ({ st with invoked := st.invoked ++ [n], executed := st.executed ++ [n] }, none)

/-- Embeds one invocation of the scheduler provider built in handleDependencies
(dependency.go lines 366-421), up to the point where a node is chosen: in
reverse mode a pre-order search selects any non-root node not yet visited; in
forward mode a post-order search selects a non-root node that currently has
zero children and is not yet visited.  The chosen node is marked visited
inside the search callback.  Returns the chosen node and the updated state, or
none when no node matches (the provider then reports no work). -/
def providerStep : Bool → OEnv → OState → Option (String × OState)
  | true, env, st =>
    match st.g.preOrderSearch st.g.Nodes.length env.rootID
        (fun id => id != env.rootID && !(st.visited.contains id)) with
    | some n => some (n, { st with visited := n :: st.visited })
    | none => none
  | false, env, st =>
    match st.g.postOrderSearch st.g.Nodes.length env.rootID
        (fun id => id != env.rootID && (st.g.childsOf id).isEmpty && !(st.visited.contains id)) with
    | some n => some (n, { st with visited := n :: st.visited })
    | none => none

/-- Embeds the work closure returned by the provider in reverse (purge) mode
(dependency.go lines 384-389): it prints the node's local path (recorded in
selected) and calls performAction.  The graph is not modified. -/
def reverseWork (env : OEnv) (n : String) (st : OState) : OState × Option String :=
  performAction env { st with selected := st.selected ++ [n] } n

/-- Embeds the work closure returned by the provider in forward mode
(dependency.go lines 410-417): it prints the node's local path (recorded in
selected), calls performAction, removes the node from the graph regardless of
the action outcome, and returns the action result. -/
def forwardWork (env : OEnv) (n : String) (st : OState) : OState × Option String :=
  match performAction env { st with selected := st.selected ++ [n] } n with
  | (st1, e) => ({ st1 with g := st1.g.removeNode n }, e)

/-- The work closure handed to the scheduler, by direction. -/
def workExec : Bool → OEnv → String → OState → OState × Option String
  | true, env, n, st => reverseWork env n st
  | false, env, n, st => forwardWork env n st

/-- The scheduler-driven execution loop of handleDependencies at concurrency
one: repeatedly ask the provider for work and run the returned closure; stop
when the provider reports no work or a closure returns an error (a failing
worker terminates, and with a single worker the run ends).  fuel bounds the
number of provider calls. -/
def orchestrate (reverse : Bool) (env : OEnv) : Nat → OState → OState × Option String
  | 0, st => (st, none)
  | fuel+1, st =>
    match providerStep reverse env st with
    | none => (st, none)
    | some (n, st1) =>
      match workExec reverse env n st1 with
      | (st2, some e) => (st2, some e)
      | (st2, none) => orchestrate reverse env fuel st2

/-- Embeds the configuration guard shared by UpdateAll (dependency.go lines
78-81) and handleDependencies (lines 259-262): true when the manager's config
is nil, the loaded config is nil, or the config declares zero dependencies.
The outer Option is the manager's config handle, the inner Option the loaded
config, the list the declared dependency configs (opaque). -/
def noDependencies (config : Option (Option (List Unit))) : Bool :=
  match config with
  | none => true
  | some none => true
  | some (some deps) => deps.isEmpty

/-- Embeds the concurrency normalization in handleDependencies (dependency.go
lines 360-362): a requested concurrency of zero becomes the number of
available processing units (runtime.NumCPU), any other value is kept. -/
def normalizeConcurrency (concurrency numCPU : Nat) : Nat :=
  if concurrency = 0 then numCPU else concurrency

/-- The outcome of one handleDependencies call, as observable by the caller
and the collaborators: whether the resolver was invoked, the returned
dependency list (none models the Go nil slice), the returned error, the full
executed-dependencies list accumulated by performAction, and the list of
dependencies whose action callback was actually invoked (entered). -/
structure HDOutcome where
  resolverCalled : Bool
  dependencies : Option (List String)
  err : Option String
  executedIDs : List String
  invokedIDs : List String
deriving Repr

/-- Embeds handleDependencies (dependency.go lines 259-445) at concurrency
one: if the configuration declares no dependencies the call returns (nil, nil)
without invoking the resolver, the scheduler or any action; otherwise the
resolver produces the graph, the scheduler loop runs, a scheduler error is
returned with a nil list, and on success only the root-flagged executed
dependencies are returned. -/
def handleDependenciesModel (config : Option (Option (List Unit)))
    (resolve : Unit → Except String graph) (reverse : Bool) (env : OEnv)
    (isRoot : String → Bool) : HDOutcome :=
  if noDependencies config then
    { resolverCalled := false, dependencies := none, err := none,
      executedIDs := [], invokedIDs := [] }
  else
    match resolve () with
    | .error e =>
      { resolverCalled := true, dependencies := none,
        err := some ("resolve dependencies: " ++ e),
        executedIDs := [], invokedIDs := [] }
    | .ok tree =>
      let st0 : OState := { g := tree, visited := [], selected := [], executed := [], invoked := [] }
      match orchestrate reverse env (tree.Nodes.length + 1) st0 with
      | (stF, some e) =>
        { resolverCalled := true, dependencies := none, err := some e,
          executedIDs := stF.executed, invokedIDs := stF.invoked }
      | (stF, none) =>
        { resolverCalled := true, dependencies := some (stF.executed.filter isRoot),
          err := none, executedIDs := stF.executed, invokedIDs := stF.invoked }

/-- Embeds UpdateAll (dependency.go lines 78-97): the same configuration guard
returns nil without resolving; otherwise the resolver runs with update=true
and its error (wrapped with a cyclic-flag hint for cycle errors, not modelled
further) is returned.  The Bool records whether the resolver was invoked. -/
def updateAllModel (config : Option (Option (List Unit)))
    (resolve : Unit → Except String Unit) : Bool × Option String :=
  if noDependencies config then (false, none)
  else
    match resolve () with
    | .ok _ => (true, none)
    | .error e => (true, some e)

/-- Embeds Command (dependency.go lines 128-150): Command drives
handleDependencies forward, silently, at concurrency one, with no skip list
and a filter list holding exactly the requested dependency name.  Its action
closure sets a found flag once it gets past prepare (a flag that can only be
set inside an action invocation); foundBy abstracts which invoked dependencies
reach that point (in Go: those whose prepare returned a non-empty directory),
so the flag is the disjunction of foundBy over the invoked dependencies and is
necessarily false when no action was invoked.  After the run, a false flag
makes Command return the error "couldn't find dependency <name>" (this check
comes first, before the run's own error); otherwise the run's error is
returned. -/
def commandModel (config : Option (Option (List Unit)))
    (resolve : Unit → Except String graph) (rootID : String)
    (nameOf : String → String) (action : String → Option String)
    (isRoot : String → Bool) (dependencyName : String)
    (foundBy : String → Bool) : Option String :=
  let env : OEnv :=
    { rootID := rootID, filterDeps := [dependencyName], skipDeps := [],
      nameOf := nameOf, action := action }
  let outcome := handleDependenciesModel config resolve false env isRoot
  if !(outcome.invokedIDs.any foundBy) then
    some ("couldn't find dependency " ++ dependencyName)
  else
    outcome.err

/-! ## Scheduler (embedded from scheduler.go)

The scheduler spawns `concurrency` workers over an errgroup; each worker loops:
call next(), terminate with the error if next fails, terminate normally if the
returned work is nil, otherwise run the work and terminate with its error if it
fails.  Run waits for all workers and returns the first recorded error.  The
embedding is a small-step system: shared state of type σ is what the provider
and the work closures read and write (both are serialized in the Go code —
the provider must be internally synchronized and work effects are modelled as
atomic); a schedule lists which worker moves at each step, standing for the
runtime's interleaving.  Errors are message strings. -/

/-- A unit of work: mutates the shared state and may fail (Go: func() error). -/
def SchedWork (σ : Type) : Type := σ → σ × Option String

/-- The provider (Go: func() (func() error, error)): mutates the shared state
and returns an optional unit of work and an optional error. -/
def SchedNext (σ : Type) : Type := σ → σ × Option (SchedWork σ) × Option String

/-- A worker is between provider calls (idle), holds a unit of work it is about
to execute (working), or has terminated with an optional error (done). -/
inductive WorkerState (σ : Type) where
  | idle
  | working (w : SchedWork σ)
  | done (res : Option String)

/-- The pool state: shared provider/work state, one WorkerState per worker,
the errgroup's first-error cell (errOnce), and the ghost list of worker
termination results in the order they occurred. -/
structure SchedState (σ : Type) where
  shared : σ
  workers : List (WorkerState σ)
  errOnce : Option String
  events : List (Option String)

/-- A worker terminates: its result is recorded, and the errgroup keeps the
first non-nil error (Go: errgroup's once-guarded error cell). -/
def finishWorker {σ : Type} (st : SchedState σ) (i : Nat) (s1 : σ)
    (r : Option String) : SchedState σ :=
  { shared := s1,
    workers := st.workers.set i (.done r),
    errOnce := match st.errOnce with
      | some e => some e
      | none => r,
    events := st.events ++ [r] }

/-- One step of worker i, following the loop body in scheduler.go Run: an idle
worker calls next and terminates on a provider error, terminates normally on
nil work, or starts the returned work; a working worker executes its unit and
terminates on a work error, else goes back to idle; a done worker never moves
(steps on out-of-range indices do nothing). -/
def schedStep {σ : Type} (next : SchedNext σ) (st : SchedState σ) (i : Nat) :
    SchedState σ :=
  match st.workers[i]? with
  | none => st
  | some .idle =>
    match next st.shared with
    | (s1, _, some e) => finishWorker st i s1 (some e)
    | (s1, none, none) => finishWorker st i s1 none
    | (s1, some w, none) => { st with shared := s1, workers := st.workers.set i (.working w) }
  | some (.working w) =>
    match w st.shared with
    | (s1, some e) => finishWorker st i s1 (some e)
    | (s1, none) => { st with shared := s1, workers := st.workers.set i .idle }
  | some (.done _) => st

/-- The pool right after NewScheduler(concurrency, next).Run() spawns its
workers: every worker idle, no error recorded. -/
def initSched {σ : Type} (concurrency : Nat) (s0 : σ) : SchedState σ :=
  { shared := s0, workers := List.replicate concurrency .idle,
    errOnce := none, events := [] }

/-- Run the pool under a given interleaving. -/
def runSched {σ : Type} (next : SchedNext σ) (st : SchedState σ)
    (sched : List Nat) : SchedState σ :=
  sched.foldl (schedStep next) st

/-- Whether a worker has terminated. -/
def WorkerState.isDone {σ : Type} : WorkerState σ → Bool
  | .done _ => true
  | _ => false

/-- Every worker has terminated: the point at which Run's join returns. -/
def allDone {σ : Type} (st : SchedState σ) : Bool :=
  st.workers.all WorkerState.isDone

/-! ## Change detection (embedded from prepare / Build in dependency.go) -/

/-- The exclusion list passed to hash.DirectoryExcludes in prepare
(dependency.go line 680). -/
def hashExcludes : List String := [".git", ".devspace"]

/-- The externally observable effects of prepare and Build: writing the
content hash into the dependency cache, switching the working directory, and
running the image build. -/
inductive DepEvent where
  | recordHash (id h : String)
  | chdir (path : String)
  | buildImages
deriving DecidableEq, Repr

/-- The per-dependency data prepare works on: the dependency ID, its local
path, and the active cache mapping dependency ID to the hash recorded at the
last successful run (a Go map whose missing keys read as ""). -/
structure DepState where
  id : String
  localPath : String
  cache : List (String × String)
deriving DecidableEq, Repr

/-- Go map read with zero-value default. -/
def cacheGet (cache : List (String × String)) (id : String) : String :=
  match cache.find? (fun p => p.1 == id) with
  | some p => p.2
  | none => ""

/-- Go map write. -/
def cacheSet (cache : List (String × String)) (id h : String) :
    List (String × String) :=
  if cache.any (fun p => p.1 == id) then
    cache.map (fun p => if p.1 == id then (p.1, h) else p)
  else cache ++ [(id, h)]

/-- Embeds prepare (dependency.go lines 678-692): hash the dependency's
working directory excluding hashExcludes (hashFn models the external
hash.DirectoryExcludes collaborator, which is assumed not to fail); if the
hash equals the cached hash for the dependency's ID and processing is not
forced, return "" with no effect; otherwise record the new hash in the cache
and then switch the working directory, returning the previous directory cwd. -/
def Dependency.prepare (hashFn : String → List String → String) (cwd : String)
    (d : DepState) (forceDependencies : Bool) : String × DepState × List DepEvent :=
  let directoryHash := hashFn d.localPath hashExcludes
  if !forceDependencies && directoryHash == cacheGet d.cache d.id then
    ("", d, [])
  else
    (cwd, { d with cache := cacheSet d.cache d.id directoryHash },
      [.recordHash d.id directoryHash, .chdir d.localPath])

/-- Embeds Build (dependency.go lines 488-506): prepare decides whether to
proceed; an empty returned directory means the dependency is skipped with a
nil error and no image build; otherwise the images are built (buildResult
models the external build controller outcome).  The deferred switch back to
the original directory is not an effect the claims refer to and is omitted. -/
def Dependency.build (hashFn : String → List String → String) (cwd : String)
    (buildResult : Option String) (d : DepState) (forceDependencies : Bool) :
    DepState × List DepEvent × Option String :=
  match Dependency.prepare hashFn cwd d forceDependencies with
  | (cur, d1, evs) =>
    if cur == "" then (d1, evs, none)
    else
      match buildResult with
      | some e => (d1, evs ++ [.buildImages], some e)
      | none => (d1, evs ++ [.buildImages], none)

/-! ## Helper lemmas -/

theorem findSome?_some_mem {α β : Type} {f : α → Option β} {l : List α} {b : β}
    (h : l.findSome? f = some b) : ∃ a ∈ l, f a = some b := by
  rcases List.findSome?_eq_some_iff.mp h with ⟨l1, a, l2, rfl, hfa, _⟩
  exact ⟨a, by simp, hfa⟩

/-- A successful pre-order search returns a node satisfying the visit
predicate. -/
theorem preOrderSearch_some {g : graph} {visit : String → Bool} :
    ∀ {fuel : Nat} {start n : String},
    g.preOrderSearch fuel start visit = some n → visit n = true := by
  intro fuel
  induction fuel with
  | zero => intro start n h; simp [graph.preOrderSearch] at h
  | succ fuel ih =>
    intro start n h
    unfold graph.preOrderSearch at h
    by_cases hv : visit start
    · simp [hv] at h
      subst h
      exact hv
    · simp [hv] at h
      obtain ⟨c, _, hc⟩ := findSome?_some_mem h
      exact ih hc

/-- A successful post-order search returns a node satisfying the visit
predicate. -/
theorem postOrderSearch_some {g : graph} {visit : String → Bool} :
    ∀ {fuel : Nat} {start n : String},
    g.postOrderSearch fuel start visit = some n → visit n = true := by
  intro fuel
  induction fuel with
  | zero => intro start n h; simp [graph.postOrderSearch] at h
  | succ fuel ih =>
    intro start n h
    unfold graph.postOrderSearch at h
    cases hfs : (g.childsOf start).findSome? (fun c => g.postOrderSearch fuel c visit) with
    | some r =>
      rw [hfs] at h
      obtain ⟨c, _, hc⟩ := findSome?_some_mem hfs
      cases h
      exact ih hc
    | none =>
      rw [hfs] at h
      by_cases hv : visit start
      · simp [hv] at h
        subst h
        exact hv
      · simp [hv] at h

/-- A path discovered by findFirstPath starts at its source and ends at its
target. -/
theorem findFirstPath_head_last {g : graph} {to_ : String} :
    ∀ {fuel : Nat} {fr : String} {p : List String},
    findFirstPath g fuel fr to_ = some p →
    p.head? = some fr ∧ p.getLast? = some to_ := by
  intro fuel
  induction fuel with
  | zero => intro fr p h; simp [findFirstPath] at h
  | succ fuel ih =>
    intro fr p h
    unfold findFirstPath at h
    by_cases he : fr = to_
    · subst he
      simp at h
      subst h
      simp
    · simp [he] at h
      cases hfs : (g.childsOf fr).findSome? (fun c => findFirstPath g fuel c to_) with
      | none => rw [hfs] at h; cases h
      | some q =>
        rw [hfs] at h
        cases h
        obtain ⟨c, _, hc⟩ := findSome?_some_mem hfs
        obtain ⟨hq1, hq2⟩ := ih hc
        refine ⟨by simp, ?_⟩
        cases q with
        | nil => simp at hq1
        | cons x xs => rw [List.getLast?_cons_cons]; exact hq2

/-- Searching for a key among entries filtered to exclude that key fails. -/
theorem find?_key_filter_ne (l : List (String × node)) (id : String) :
    (l.filter (fun p => p.1 != id)).find? (fun p => p.1 == id) = none := by
  rw [List.find?_filter]
  refine List.find?_eq_none.mpr ?_
  intro x _
  by_cases hx : x.1 = id <;> simp [hx]

/-- After removeNode the node is no longer registered. -/
theorem getNode_removeNode_self (g : graph) (id : String) :
    (g.removeNode id).getNode id = none := by
  unfold graph.removeNode
  cases hg : g.getNode id with
  | none => exact hg
  | some n =>
    simp only [graph.getNode, find?_key_filter_ne]

/-- performAction never changes the graph, the visited map or the selected
trace; it only appends to invoked and executed. -/
theorem performAction_frame (env : OEnv) (st : OState) (n : String) :
    (performAction env st n).1.g = st.g ∧
    (performAction env st n).1.visited = st.visited ∧
    (performAction env st n).1.selected = st.selected := by
  unfold performAction
  split
  · exact ⟨rfl, rfl, rfl⟩
  · split
    · exact ⟨rfl, rfl, rfl⟩
    · split
      · exact ⟨rfl, rfl, rfl⟩
      · split <;> exact ⟨rfl, rfl, rfl⟩

/-- performAction either leaves the executed list unchanged or appends exactly
the acted-on node. -/
theorem performAction_executed (env : OEnv) (st : OState) (n : String) :
    (performAction env st n).1.executed = st.executed ∨
    (performAction env st n).1.executed = st.executed ++ [n] := by
  unfold performAction
  split
  · exact Or.inl rfl
  · split
    · exact Or.inl rfl
    · split
      · exact Or.inl rfl
      · split
        · exact Or.inl rfl
        · exact Or.inr rfl

/-- A successful provider invocation selects a non-root, not-yet-visited node,
marks exactly it visited, and touches nothing else; in forward mode the node
additionally has zero children at selection time. -/
theorem providerStep_some {reverse : Bool} {env : OEnv} {st : OState}
    {n : String} {st1 : OState}
    (h : providerStep reverse env st = some (n, st1)) :
    n ≠ env.rootID ∧ st.visited.contains n = false ∧
    st1 = { st with visited := n :: st.visited } ∧
    (reverse = false → (st.g.childsOf n).isEmpty = true) := by
  cases reverse with
  | true =>
    simp only [providerStep] at h
    cases hps : st.g.preOrderSearch st.g.Nodes.length env.rootID
        (fun id => id != env.rootID && !(st.visited.contains id)) with
    | none => rw [hps] at h; cases h
    | some m =>
      rw [hps] at h
      cases h
      have hp := preOrderSearch_some hps
      simp only [Bool.and_eq_true, bne_iff_ne, ne_eq, Bool.not_eq_true'] at hp
      exact ⟨hp.1, hp.2, rfl, by intro hh; cases hh⟩
  | false =>
    simp only [providerStep] at h
    cases hps : st.g.postOrderSearch st.g.Nodes.length env.rootID
        (fun id => id != env.rootID && (st.g.childsOf id).isEmpty
          && !(st.visited.contains id)) with
    | none => rw [hps] at h; cases h
    | some m =>
      rw [hps] at h
      cases h
      have hp := postOrderSearch_some hps
      simp only [Bool.and_eq_true, bne_iff_ne, ne_eq, Bool.not_eq_true'] at hp
      exact ⟨hp.1.1, hp.2, rfl, fun _ => hp.1.2⟩

/-- The work closure of either direction appends exactly the handed-out node
to the selected trace, leaves the visited map untouched, and changes the graph
only in forward mode, where it removes exactly the handed-out node. -/
theorem workExec_frame (reverse : Bool) (env : OEnv) (n : String) (st : OState) :
    (workExec reverse env n st).1.visited = st.visited ∧
    (workExec reverse env n st).1.selected = st.selected ++ [n] ∧
    (workExec reverse env n st).1.g
      = (if reverse then st.g else st.g.removeNode n) := by
  cases reverse with
  | true =>
    unfold workExec reverseWork
    obtain ⟨hg, hv, hs⟩ := performAction_frame env { st with selected := st.selected ++ [n] } n
    exact ⟨hv, hs, by simp [hg]⟩
  | false =>
    unfold workExec forwardWork
    rcases hpa : performAction env { st with selected := st.selected ++ [n] } n with ⟨st1, e⟩
    obtain ⟨hg, hv, hs⟩ := performAction_frame env { st with selected := st.selected ++ [n] } n
    rw [hpa] at hg hv hs
    simp only at hg hv hs
    simp only [hpa]
    exact ⟨hv, hs, by simp [hg]⟩

/-- The work closure either leaves the executed list unchanged or appends
exactly the handed-out node. -/
theorem workExec_executed (reverse : Bool) (env : OEnv) (n : String) (st : OState) :
    (workExec reverse env n st).1.executed = st.executed ∨
    (workExec reverse env n st).1.executed = st.executed ++ [n] := by
  cases reverse with
  | true =>
    unfold workExec reverseWork
    simpa using performAction_executed env { st with selected := st.selected ++ [n] } n
  | false =>
    unfold workExec forwardWork
    rcases hpa : performAction env { st with selected := st.selected ++ [n] } n with ⟨st1, e⟩
    have hex := performAction_executed env { st with selected := st.selected ++ [n] } n
    rw [hpa] at hex
    simp only [hpa]
    simpa using hex

/-- Throughout an orchestration run, the root sentinel never enters the
executed-dependencies list. -/
theorem orchestrate_executed_no_root (reverse : Bool) (env : OEnv) :
    ∀ (fuel : Nat) (st : OState), env.rootID ∉ st.executed →
    env.rootID ∉ (orchestrate reverse env fuel st).1.executed := by
  intro fuel
  induction fuel with
  | zero => intro st h; exact h
  | succ fuel ih =>
    intro st h
    unfold orchestrate
    cases hps : providerStep reverse env st with
    | none => simpa using h
    | some pr =>
      obtain ⟨n, st1⟩ := pr
      obtain ⟨hnr, hnv, hst1, _⟩ := providerStep_some hps
      rcases hwe : workExec reverse env n st1 with ⟨st2, e⟩
      have h1 : env.rootID ∉ st1.executed := by rw [hst1]; exact h
      have hroot2 : env.rootID ∉ st2.executed := by
        have hex := workExec_executed reverse env n st1
        rw [hwe] at hex
        simp only at hex
        cases hex with
        | inl he => rw [he]; exact h1
        | inr he =>
          rw [he]
          intro hmem
          rcases List.mem_append.mp hmem with hm | hm
          · exact h1 hm
          · have : env.rootID = n := by simpa using hm
            exact hnr this.symm
      simp only [hwe]
      cases e with
      | some err => simpa using hroot2
      | none => simpa using ih st2 hroot2

/-- Throughout an orchestration run, the sequence of nodes handed out as work
stays duplicate-free, provided every previously handed-out node is already in
the visited map. -/
theorem orchestrate_selected_nodup (reverse : Bool) (env : OEnv) :
    ∀ (fuel : Nat) (st : OState),
    (∀ x ∈ st.selected, x ∈ st.visited) → st.selected.Nodup →
    (orchestrate reverse env fuel st).1.selected.Nodup := by
  intro fuel
  induction fuel with
  | zero => intro st _ hnd; exact hnd
  | succ fuel ih =>
    intro st hsub hnd
    unfold orchestrate
    cases hps : providerStep reverse env st with
    | none => simpa using hnd
    | some pr =>
      obtain ⟨n, st1⟩ := pr
      obtain ⟨hnr, hnv, hst1, _⟩ := providerStep_some hps
      rcases hwe : workExec reverse env n st1 with ⟨st2, e⟩
      obtain ⟨hv2, hs2, _⟩ := workExec_frame reverse env n st1
      rw [hwe] at hv2 hs2
      simp only at hv2 hs2
      have hsel1 : st1.selected = st.selected := by rw [hst1]
      have hvis1 : st1.visited = n :: st.visited := by rw [hst1]
      have hnvis : n ∉ st.visited := by simpa using hnv
      have hnmem : n ∉ st.selected := fun hmem => hnvis (hsub n hmem)
      have hnd2 : st2.selected.Nodup := by
        rw [hs2, hsel1]
        refine List.Nodup.append hnd (List.nodup_singleton n) ?_
        intro a ha hb
        have : a = n := by simpa using hb
        subst this
        exact hnmem ha
      have hsub2 : ∀ x ∈ st2.selected, x ∈ st2.visited := by
        rw [hs2, hsel1, hv2, hvis1]
        intro x hx
        rcases List.mem_append.mp hx with hx | hx
        · exact List.mem_cons_of_mem _ (hsub x hx)
        · have : x = n := by simpa using hx
          subst this
          exact List.mem_cons_self _ _
      simp only [hwe]
      cases e with
      | some err => simpa using hnd2
      | none => simpa using ih st2 hsub2 hnd2

/-- Setting an index to an element with the same predicate value keeps the
predicate count. -/
theorem countP_set_same {α : Type} (p : α → Bool) :
    ∀ (l : List α) (i : Nat) (a b : α), l[i]? = some a → p b = p a →
    (l.set i b).countP p = l.countP p
  | [], i, a, b, h, _ => by simp at h
  | x :: xs, 0, a, b, h, hp => by
    simp at h
    subst h
    simp [List.countP_cons, hp]
  | x :: xs, i+1, a, b, h, hp => by
    simp at h
    simp [List.countP_cons, countP_set_same p xs i a b h hp]

/-- Setting an index holding a predicate-true element to a predicate-false one
decreases the predicate count by one. -/
theorem countP_set_true_false {α : Type} (p : α → Bool) :
    ∀ (l : List α) (i : Nat) (a b : α), l[i]? = some a → p a = true → p b = false →
    (l.set i b).countP p + 1 = l.countP p
  | [], i, a, b, h, _, _ => by simp at h
  | x :: xs, 0, a, b, h, hpa, hpb => by
    simp at h
    subst h
    simp [List.countP_cons, hpa, hpb]
  | x :: xs, i+1, a, b, h, hpa, hpb => by
    simp at h
    have := countP_set_true_false p xs i a b h hpa hpb
    simp [List.countP_cons]
    omega

/-- The invariant the pool maintains: the errgroup cell holds the first
non-nil termination result, and the number of termination events plus the
number of still-active workers equals the pool size. -/
def SchedInv {σ : Type} (st : SchedState σ) : Prop :=
  st.errOnce = (st.events.filterMap id).head? ∧
  st.events.length + st.workers.countP (fun w => !w.isDone) = st.workers.length

theorem schedInv_init {σ : Type} (C : Nat) (s0 : σ) :
    SchedInv (initSched C s0) := by
  constructor
  · rfl
  · simp [initSched, List.countP_replicate, WorkerState.isDone]

theorem schedInv_finishWorker {σ : Type} {st : SchedState σ} (hinv : SchedInv st)
    {i : Nat} {a : WorkerState σ} (ha : st.workers[i]? = some a)
    (hnd : a.isDone = false) (s1 : σ) (r : Option String) :
    SchedInv (finishWorker st i s1 r) := by
  obtain ⟨h1, h2⟩ := hinv
  constructor
  · simp only [finishWorker, List.filterMap_append]
    cases ho : st.errOnce with
    | some e =>
      rw [ho] at h1
      cases hev : st.events.filterMap id with
      | nil => rw [hev] at h1; cases h1
      | cons x xs =>
        rw [hev] at h1
        simp at h1
        subst h1
        simp [List.head?_append]
    | none =>
      rw [ho] at h1
      have hnil : st.events.filterMap id = [] := List.head?_eq_none_iff.mp h1.symm
      rw [hnil]
      cases r <;> simp
  · simp only [finishWorker, List.length_append, List.length_set, List.length_cons,
      List.length_nil]
    have hcnt := countP_set_true_false (fun w => !w.isDone) st.workers i a
      (WorkerState.done r) ha (by simp [hnd]) (by simp [WorkerState.isDone])
    omega

/-- One scheduler step preserves the pool invariant. -/
theorem schedInv_step {σ : Type} (next : SchedNext σ) {st : SchedState σ}
    (hinv : SchedInv st) (i : Nat) : SchedInv (schedStep next st i) := by
  unfold schedStep
  split
  · exact hinv
  · rename_i hw
    split
    · rename_i s1 w? e hn
      exact schedInv_finishWorker hinv hw rfl s1 (some e)
    · rename_i s1 hn
      exact schedInv_finishWorker hinv hw rfl s1 none
    · rename_i s1 w hn
      obtain ⟨h1, h2⟩ := hinv
      refine ⟨h1, ?_⟩
      simp only [List.length_set]
      rw [countP_set_same (fun x => !x.isDone) st.workers i WorkerState.idle
        (WorkerState.working w) hw (by rfl)]
      exact h2
  · rename_i w hw
    split
    · rename_i s1 e hn
      exact schedInv_finishWorker hinv hw rfl s1 (some e)
    · rename_i s1 hn
      obtain ⟨h1, h2⟩ := hinv
      refine ⟨h1, ?_⟩
      simp only [List.length_set]
      rw [countP_set_same (fun x => !x.isDone) st.workers i (WorkerState.working w)
        WorkerState.idle hw (by rfl)]
      exact h2
  · exact hinv

/-- Running any schedule preserves the pool invariant. -/
theorem schedInv_runSched {σ : Type} (next : SchedNext σ) (sched : List Nat) :
    ∀ (st : SchedState σ), SchedInv st → SchedInv (runSched next st sched) := by
  induction sched with
  | nil => intro st hinv; exact hinv
  | cons i rest ih => intro st hinv; exact ih _ (schedInv_step next hinv i)

/-- A scheduler step never changes the number of workers. -/
theorem schedStep_workers_length {σ : Type} (next : SchedNext σ)
    (st : SchedState σ) (i : Nat) :
    (schedStep next st i).workers.length = st.workers.length := by
  unfold schedStep
  split
  · rfl
  · split <;> simp [finishWorker]
  · split <;> simp [finishWorker]
  · rfl

theorem runSched_workers_length {σ : Type} (next : SchedNext σ) (sched : List Nat) :
    ∀ (st : SchedState σ),
    (runSched next st sched).workers.length = st.workers.length := by
  induction sched with
  | nil => intro st; rfl
  | cons i rest ih =>
    intro st
    rw [runSched] at *
    calc ((i :: rest).foldl (schedStep next) st).workers.length
        = (rest.foldl (schedStep next) (schedStep next st i)).workers.length := rfl
      _ = (schedStep next st i).workers.length := ih _
      _ = st.workers.length := schedStep_workers_length next st i

/-- The number of distinct edge-paths of depth below fuel from fr to x: one
for fr itself when fr is x, plus one per path through each child. -/
def graph.pathCount (g : graph) : Nat → String → String → Nat
  | 0, _, _ => 0
  | fuel+1, fr, x =>
    (if fr == x then 1 else 0)
      + ((g.childsOf fr).map (fun c => g.pathCount fuel c x)).sum

theorem count_flatMap (x : String) (f : String → List String) :
    ∀ l : List String,
    ((l.flatMap f).count x) = (l.map (fun c => (f c).count x)).sum
  | [] => rfl
  | c :: cs => by
    simp only [List.flatMap_cons, List.count_append, List.map_cons, List.sum_cons,
      count_flatMap x f cs]

/-- Pre-order traversal visits each node once per edge-path reaching it. -/
theorem preOrderList_count (g : graph) (x : String) :
    ∀ (fuel : Nat) (fr : String),
    (g.preOrderList fuel fr).count x = g.pathCount fuel fr x := by
  intro fuel
  induction fuel with
  | zero => intro fr; rfl
  | succ fuel ih =>
    intro fr
    unfold graph.preOrderList graph.pathCount
    rw [List.count_cons, count_flatMap x]
    have hmap : (g.childsOf fr).map (fun c => (g.preOrderList fuel c).count x)
        = (g.childsOf fr).map (fun c => g.pathCount fuel c x) :=
      congrArg (fun f => (g.childsOf fr).map f) (funext fun c => ih c)
    rw [hmap]
    omega

/-- Post-order traversal visits each node once per edge-path reaching it. -/
theorem postOrderList_count (g : graph) (x : String) :
    ∀ (fuel : Nat) (fr : String),
    (g.postOrderList fuel fr).count x = g.pathCount fuel fr x := by
  intro fuel
  induction fuel with
  | zero => intro fr; rfl
  | succ fuel ih =>
    intro fr
    unfold graph.postOrderList graph.pathCount
    rw [List.count_append, List.count_cons, List.count_nil, count_flatMap x]
    have hmap : (g.childsOf fr).map (fun c => (g.postOrderList fuel c).count x)
        = (g.childsOf fr).map (fun c => g.pathCount fuel c x) :=
      congrArg (fun f => (g.childsOf fr).map f) (funext fun c => ih c)
    rw [hmap]
    omega

/-! ## Concrete instances used by the witnesses -/

/-- An orchestration environment with no filtering, no skipping and an
always-succeeding action. -/
def envEx : OEnv :=
  { rootID := "root", filterDeps := [], skipDeps := [],
    nameOf := fun id => id, action := fun _ => none }

/-- An orchestration environment whose filter list excludes every node of the
example graph and whose action always fails. -/
def envFiltered : OEnv :=
  { rootID := "root", filterDeps := ["other"], skipDeps := [],
    nameOf := fun id => id, action := fun _ => some "action failed" }

/-- The initial orchestration state over the example graph. -/
def st0Ex : OState :=
  { g := exampleGraph, visited := [], selected := [], executed := [], invoked := [] }

/-- A provider over a queue of numbered work items: it pops the head and hands
out a unit of work that appends the item to the result list and fails on item
three (mirroring the TestRunWorkErrors scheduler test). -/
def exQueueNext : SchedNext (List Nat × List Nat) := fun s =>
  match s.1 with
  | [] => (s, none, none)
  | x :: xs =>
    ((xs, s.2),
     some (fun q => ((q.1, q.2 ++ [x]), if x = 3 then some "work error!" else none)),
     none)

/-- A two-worker run over the three-item queue, scheduled so the first worker
drains the queue and fails on the third item while the second worker finds no
work. -/
def exSchedFinal : SchedState (List Nat × List Nat) :=
  runSched exQueueNext (initSched 2 ([1, 2, 3], [])) [0, 0, 0, 0, 0, 0, 1]

/-! ## Claim theorems -/

/-- C2 (counterexample): on the example graph root->{A,B,C}, B->D, D->E, C->B
built in that insertion order, the pre-order sequence is as the claim states,
but the post-order sequence is [A,E,D,B,E,D,B,C,root] (each child subtree is
finished before its parent, so E precedes D), not the claimed
[A,D,E,B,D,E,B,C,root]; graph_test.go pins the same sequence. -/
theorem traversal_postorder_counterexample :
    exampleGraph.preOrderList exampleGraph.Nodes.length "root"
      = ["root", "A", "B", "D", "E", "C", "B", "D", "E"] ∧
    exampleGraph.postOrderList exampleGraph.Nodes.length "root"
      = ["A", "E", "D", "B", "E", "D", "B", "C", "root"] ∧
    exampleGraph.postOrderList exampleGraph.Nodes.length "root"
      ≠ ["A", "D", "E", "B", "D", "E", "B", "C", "root"] := by
  refine ⟨by decide, by decide, by decide⟩

/-- C2 (amended): on that graph, pre-order from root yields
[root,A,B,D,E,C,B,D,E] and post-order yields [A,E,D,B,E,D,B,C,root]; in
general, each traversal visits a node once per edge-path reaching it. -/
theorem traversal_sequences :
    exampleGraph.preOrderList exampleGraph.Nodes.length "root"
      = ["root", "A", "B", "D", "E", "C", "B", "D", "E"] ∧
    exampleGraph.postOrderList exampleGraph.Nodes.length "root"
      = ["A", "E", "D", "B", "E", "D", "B", "C", "root"] ∧
    (∀ (g : graph) (fuel : Nat) (fr x : String),
      (g.preOrderList fuel fr).count x = g.pathCount fuel fr x ∧
      (g.postOrderList fuel fr).count x = g.pathCount fuel fr x) := by
  refine ⟨by decide, by decide, ?_⟩
  intro g fuel fr x
  exact ⟨preOrderList_count g x fuel fr, postOrderList_count g x fuel fr⟩

/-- C5: when a path from the child down to the parent already exists,
insertNodeAt fails with a cycle error whose listed path is the parent ID
followed by the discovered child-to-parent path, whose message is that list
one ID per line behind the prefix, and which therefore starts and ends at the
parent ID. -/
theorem insertNodeAt_cycle_error (g : graph) (parentID childID : String)
    (p : List String)
    (hparent : g.getNode parentID ≠ none)
    (hchild : g.getNode childID ≠ none)
    (hpath : findFirstPath g g.Nodes.length childID parentID = some p) :
    g.insertNodeAt parentID childID = .error (.cyclic (parentID :: p)) ∧
    (GraphErr.cyclic (parentID :: p)).message
      = "Cyclic dependency found: \n" ++ String.intercalate "\n" (parentID :: p) ∧
    p.head? = some childID ∧
    (parentID :: p).head? = some parentID ∧
    (parentID :: p).getLast? = some parentID := by
  obtain ⟨hh, hl⟩ := findFirstPath_head_last hpath
  refine ⟨?_, rfl, hh, rfl, ?_⟩
  · unfold graph.insertNodeAt
    cases hp : g.getNode parentID with
    | none => exact absurd hp hparent
    | some np =>
      cases hc : g.getNode childID with
      | none => exact absurd hc hchild
      | some nc => rw [hpath]
  · cases p with
    | nil => simp at hh
    | cons a as => rw [List.getLast?_cons_cons]; exact hl

/-- C5 witness: inserting C under E in the example graph closes the loop
E,C,B,D,E and is rejected with exactly that listed cycle. -/
theorem insertNodeAt_cycle_error_witness :
    (exampleGraph.getNode "E" ≠ none) ∧ (exampleGraph.getNode "C" ≠ none) ∧
    findFirstPath exampleGraph exampleGraph.Nodes.length "C" "E"
      = some ["C", "B", "D", "E"] ∧
    (exampleGraph.insertNodeAt "E" "C"
        = .error (.cyclic ("E" :: ["C", "B", "D", "E"])) ∧
      (GraphErr.cyclic ("E" :: ["C", "B", "D", "E"])).message
        = "Cyclic dependency found: \n"
          ++ String.intercalate "\n" ("E" :: ["C", "B", "D", "E"]) ∧
      (["C", "B", "D", "E"] : List String).head? = some "C" ∧
      ("E" :: ["C", "B", "D", "E"]).head? = some "E" ∧
      ("E" :: ["C", "B", "D", "E"]).getLast? = some "E") :=
  ⟨by decide, by decide, by decide,
    insertNodeAt_cycle_error exampleGraph "E" "C" ["C", "B", "D", "E"]
      (by decide) (by decide) (by decide)⟩

/-- C1 (counterexample): a reverse (purge) provider call on the example graph
hands out node A and marks it visited, and running the returned work closure
invokes the action on A — but the closure does not remove A from the graph:
the graph is unchanged and A is still registered afterwards, contradicting the
claimed "and then removes that node from the graph". -/
theorem reverse_work_no_removal_counterexample :
    providerStep true envEx st0Ex = some ("A", { st0Ex with visited := ["A"] }) ∧
    (reverseWork envEx "A" { st0Ex with visited := ["A"] }).1.invoked = ["A"] ∧
    (reverseWork envEx "A" { st0Ex with visited := ["A"] }).1.g = exampleGraph ∧
    (reverseWork envEx "A" { st0Ex with visited := ["A"] }).1.g.getNode "A"
      = some { ID := "A", childs := [], parents := ["root"] } := by
  refine ⟨by decide, by decide, by decide, by decide⟩

/-- C1 (amended): for every reverse (purge) orchestration call, the provider
traverses the graph pre-order, selects any not-yet-visited non-root node (no
leaf restriction), marks it visited, and returns a work closure that invokes
the per-node action but does not modify the graph; ancestors are eligible in
subsequent provider calls anyway because the pre-order predicate imposes no
leaf restriction and consults only the visited map. -/
theorem reverse_provider_no_removal {env : OEnv} {st : OState}
    {n : String} {st1 : OState}
    (h : providerStep true env st = some (n, st1)) :
    n ≠ env.rootID ∧ st.visited.contains n = false ∧
    st1 = { st with visited := n :: st.visited } ∧
    ∀ st' : OState,
      (reverseWork env n st').1.g = st'.g ∧
      (reverseWork env n st').1.selected = st'.selected ++ [n] ∧
      (reverseWork env n st').2
        = (performAction env { st' with selected := st'.selected ++ [n] } n).2 := by
  obtain ⟨h1, h2, h3, _⟩ := providerStep_some h
  refine ⟨h1, h2, h3, ?_⟩
  intro st'
  unfold reverseWork
  obtain ⟨hg, hv, hs⟩ := performAction_frame env { st' with selected := st'.selected ++ [n] } n
  exact ⟨by simpa using hg, by simpa using hs, rfl⟩

/-- C1 witness: the amended provider/closure contract instantiated on the
example graph's first reverse step. -/
theorem reverse_provider_no_removal_witness :
    providerStep true envEx st0Ex = some ("A", { st0Ex with visited := ["A"] }) ∧
    ("A" ≠ envEx.rootID ∧ st0Ex.visited.contains "A" = false ∧
      ({ st0Ex with visited := ["A"] } : OState)
        = { st0Ex with visited := "A" :: st0Ex.visited } ∧
      ∀ st' : OState,
        (reverseWork envEx "A" st').1.g = st'.g ∧
        (reverseWork envEx "A" st').1.selected = st'.selected ++ ["A"] ∧
        (reverseWork envEx "A" st').2
          = (performAction envEx { st' with selected := st'.selected ++ ["A"] } "A").2) :=
  ⟨by decide, reverse_provider_no_removal (by decide)⟩

/-- C7: the root sentinel is never acted on: performAction returns nil
immediately on the root without touching the state, a successful provider call
never selects the root in either direction, and a whole orchestration run
never puts the root into the executed-dependencies list. -/
theorem root_never_acted (env : OEnv) (st : OState) (reverse : Bool)
    (n : String) (st1 : OState) (fuel : Nat) (st0 : OState)
    (hroot : env.rootID ∉ st0.executed) :
    performAction env st env.rootID = (st, none) ∧
    (providerStep reverse env st = some (n, st1) → n ≠ env.rootID) ∧
    env.rootID ∉ (orchestrate reverse env fuel st0).1.executed := by
  refine ⟨?_, ?_, orchestrate_executed_no_root reverse env fuel st0 hroot⟩
  · unfold performAction
    simp
  · intro h
    exact (providerStep_some h).1

/-- C7 witness: instantiated on the example graph in reverse mode. -/
theorem root_never_acted_witness :
    ("root" ∉ st0Ex.executed) ∧
    (performAction envEx st0Ex envEx.rootID = (st0Ex, none) ∧
      (providerStep true envEx st0Ex = some ("A", { st0Ex with visited := ["A"] })
        → "A" ≠ envEx.rootID) ∧
      envEx.rootID ∉ (orchestrate true envEx 3 st0Ex).1.executed) :=
  ⟨by decide,
    root_never_acted envEx st0Ex true "A" { st0Ex with visited := ["A"] } 3 st0Ex
      (by decide)⟩

/-- C9: a node is handed out as work at most once per orchestration call: a
successful provider call selects only a node absent from the visited map and
records it there, and the full run's hand-out sequence (one print of the
node's local path per hand-out, one performAction call per hand-out) is
duplicate-free in both directions when the run starts with an empty hand-out
trace. -/
theorem node_handed_out_once (reverse : Bool) (env : OEnv)
    {st : OState} {n : String} {st1 : OState} (fuel : Nat) (st0 : OState)
    (hsel : st0.selected = [])
    (h : providerStep reverse env st = some (n, st1)) :
    st.visited.contains n = false ∧ st1.visited = n :: st.visited ∧
    (orchestrate reverse env fuel st0).1.selected.Nodup := by
  obtain ⟨_, h2, h3, _⟩ := providerStep_some h
  refine ⟨h2, by rw [h3], ?_⟩
  apply orchestrate_selected_nodup
  · rw [hsel]
    intro x hx
    cases hx
  · rw [hsel]
    exact List.nodup_nil

/-- C9 witness: instantiated on the example graph in forward mode (the first
post-order leaf is A). -/
theorem node_handed_out_once_witness :
    (st0Ex.selected = []) ∧
    (providerStep false envEx st0Ex = some ("A", { st0Ex with visited := ["A"] })) ∧
    (st0Ex.visited.contains "A" = false ∧
      ({ st0Ex with visited := ["A"] } : OState).visited = "A" :: st0Ex.visited ∧
      (orchestrate false envEx 7 st0Ex).1.selected.Nodup) :=
  ⟨by decide, by decide,
    node_handed_out_once false envEx 7 st0Ex (by decide) (by decide)⟩

/-- C10: the forward work closure removes the selected node from the graph
unconditionally — for every environment, including an always-failing action —
so the node is no longer registered afterwards; and when the node is excluded
by a non-empty filter list or named in the skip list, the action is not
invoked and the closure reports success, while the node is still pruned. -/
theorem forward_work_removes_unconditionally (env : OEnv) (n : String)
    (st : OState)
    (hfs : foundDependency (env.nameOf n) env.filterDeps = false
         ∨ skipDependency (env.nameOf n) env.skipDeps = true) :
    (∀ (env' : OEnv) (st' : OState),
      (forwardWork env' n st').1.g = st'.g.removeNode n) ∧
    (st.g.removeNode n).getNode n = none ∧
    (forwardWork env n st).1.invoked = st.invoked ∧
    (forwardWork env n st).1.executed = st.executed ∧
    (forwardWork env n st).2 = none := by
  have hall : ∀ (env' : OEnv) (st' : OState),
      (forwardWork env' n st').1.g = st'.g.removeNode n := by
    intro env' st'
    have hf := workExec_frame false env' n st'
    simpa [workExec] using hf.2.2
  have hfiltered : performAction env { st with selected := st.selected ++ [n] } n
      = ({ st with selected := st.selected ++ [n] }, none) := by
    unfold performAction
    by_cases hr : n = env.rootID
    · simp [hr]
    · rcases hfs with hf | hs
      · simp [hr, hf]
      · by_cases hf : foundDependency (env.nameOf n) env.filterDeps
        · simp [hr, hf, hs]
        · simp [hr, hf]
  refine ⟨hall, getNode_removeNode_self st.g n, ?_, ?_, ?_⟩ <;>
    · unfold forwardWork
      rw [hfiltered]

/-- C10 witness: on the example graph with a filter list that excludes node A
and an always-failing action, the forward closure on A removes A, invokes
nothing and returns nil. -/
theorem forward_work_removes_unconditionally_witness :
    (foundDependency (envFiltered.nameOf "A") envFiltered.filterDeps = false
      ∨ skipDependency (envFiltered.nameOf "A") envFiltered.skipDeps = true) ∧
    ((∀ (env' : OEnv) (st' : OState),
        (forwardWork env' "A" st').1.g = st'.g.removeNode "A") ∧
      (st0Ex.g.removeNode "A").getNode "A" = none ∧
      (forwardWork envFiltered "A" st0Ex).1.invoked = st0Ex.invoked ∧
      (forwardWork envFiltered "A" st0Ex).1.executed = st0Ex.executed ∧
      (forwardWork envFiltered "A" st0Ex).2 = none) :=
  ⟨Or.inl (by decide),
    forward_work_removes_unconditionally envFiltered "A" st0Ex (Or.inl (by decide))⟩

/-- C3: for any provider, any concurrency and any interleaving under which
every worker has terminated (the point at which Run's join returns), the
scheduler returns the first error observed among the workers' termination
results — nil exactly when no worker failed — and every one of the C workers
contributes exactly one termination result. -/
theorem scheduler_first_error {σ : Type} (next : SchedNext σ) (s0 : σ) (C : Nat)
    (sched : List Nat)
    (hdone : allDone (runSched next (initSched C s0) sched) = true) :
    (runSched next (initSched C s0) sched).errOnce
      = ((runSched next (initSched C s0) sched).events.filterMap id).head? ∧
    ((runSched next (initSched C s0) sched).errOnce = none ↔
      ∀ e ∈ (runSched next (initSched C s0) sched).events, e = none) ∧
    (runSched next (initSched C s0) sched).events.length = C := by
  obtain ⟨h1, h2⟩ := schedInv_runSched next sched _ (schedInv_init C s0)
  refine ⟨h1, ?_, ?_⟩
  · rw [h1]
    constructor
    · intro hn e he
      have hnil := List.head?_eq_none_iff.mp hn
      have := List.filterMap_eq_nil_iff.mp hnil e he
      simpa using this
    · intro hall
      have hnil : (runSched next (initSched C s0) sched).events.filterMap id = [] := by
        apply List.filterMap_eq_nil_iff.mpr
        intro a ha
        simpa using hall a ha
      rw [hnil]
      rfl
  · unfold allDone at hdone
    have hcnt : (runSched next (initSched C s0) sched).workers.countP
        (fun w => !w.isDone) = 0 := by
      apply List.countP_eq_zero.mpr
      intro a ha
      have := List.all_eq_true.mp hdone a ha
      simp [this]
    have hlen : (runSched next (initSched C s0) sched).workers.length = C := by
      rw [runSched_workers_length]
      simp [initSched]
    omega

/-- C3 witness: two workers over a three-item queue whose third item fails;
the first worker drains the queue and fails, the second finds no work; Run
reports the work error. -/
theorem scheduler_first_error_witness :
    allDone exSchedFinal = true ∧
    (exSchedFinal.errOnce = (exSchedFinal.events.filterMap id).head? ∧
      (exSchedFinal.errOnce = none ↔ ∀ e ∈ exSchedFinal.events, e = none) ∧
      exSchedFinal.events.length = 2) :=
  ⟨by rfl,
    scheduler_first_error exQueueNext ([1, 2, 3], []) 2 [0, 0, 0, 0, 0, 0, 1] (by rfl)⟩

/-- C4: a requested concurrency of zero is normalized (in handleDependencies,
before the scheduler is built) to the number of available processing units, so
at least one worker runs whenever the machine has one; a non-zero request is
kept; and a pool built with zero workers would indeed do nothing: any schedule
leaves it in its initial state — no work executed, no error. -/
theorem concurrency_zero_normalized {σ : Type} (next : SchedNext σ) (s0 : σ)
    (sched : List Nat) (c numCPU : Nat) (hcpu : 1 ≤ numCPU) :
    normalizeConcurrency 0 numCPU = numCPU ∧
    (c ≠ 0 → normalizeConcurrency c numCPU = c) ∧
    1 ≤ normalizeConcurrency 0 numCPU ∧
    runSched next (initSched 0 s0) sched = initSched 0 s0 := by
  refine ⟨rfl, ?_, ?_, ?_⟩
  · intro hc
    simp [normalizeConcurrency, hc]
  · simpa [normalizeConcurrency] using hcpu
  · have main : ∀ (l : List Nat) (st : SchedState σ), st.workers = [] →
        runSched next st l = st := by
      intro l
      induction l with
      | nil => intro st _; rfl
      | cons i rest ih =>
        intro st hw
        have hstep : schedStep next st i = st := by
          unfold schedStep
          rw [hw]
          simp
        have : runSched next st (i :: rest)
            = runSched next (schedStep next st i) rest := rfl
        rw [this, hstep]
        exact ih st hw
    exact main sched _ rfl

/-- C4 witness: with four available processing units and a trivial provider,
the normalization and the zero-worker inertness instantiated concretely. -/
theorem concurrency_zero_normalized_witness :
    (1 ≤ 4) ∧
    (normalizeConcurrency 0 4 = 4 ∧
      (2 ≠ 0 → normalizeConcurrency 2 4 = 2) ∧
      1 ≤ normalizeConcurrency 0 4 ∧
      runSched (fun (s : List Nat) => (s, none, none)) (initSched 0 ([] : List Nat))
        [0, 1] = initSched 0 ([] : List Nat)) :=
  ⟨by decide,
    concurrency_zero_normalized (fun (s : List Nat) => (s, none, none)) [] [0, 1] 2 4
      (by decide)⟩

/-- C6: a forward action on a dependency whose directory hash (computed with
.git and .devspace excluded) equals the hash cached under the dependency's ID
is, when not forced, a no-op success: Build performs no effect, changes no
state and returns nil; and whenever prepare does proceed, its effect sequence
records the new hash in the cache strictly before switching the working
directory. -/
theorem forward_action_change_detection (hashFn : String → List String → String)
    (cwd : String) (buildResult : Option String) (d : DepState)
    (hmatch : hashFn d.localPath hashExcludes = cacheGet d.cache d.id) :
    Dependency.build hashFn cwd buildResult d false = (d, [], none) ∧
    (∀ (d' : DepState) (force : Bool) (cur : String) (d2 : DepState)
        (evs : List DepEvent),
      Dependency.prepare hashFn cwd d' force = (cur, d2, evs) → evs ≠ [] →
      evs = [DepEvent.recordHash d'.id (hashFn d'.localPath hashExcludes),
             DepEvent.chdir d'.localPath]) := by
  constructor
  · unfold Dependency.build Dependency.prepare
    simp [hmatch]
  · intro d' force cur d2 evs hp hne
    unfold Dependency.prepare at hp
    by_cases hskip : (!force
        && (hashFn d'.localPath hashExcludes == cacheGet d'.cache d'.id)) = true
    · rw [if_pos hskip] at hp
      cases hp
      exact absurd rfl hne
    · rw [if_neg hskip] at hp
      cases hp
      rfl

/-- C6 witness: a dependency whose cached hash equals the current directory
hash is skipped by Build, and a cache-missing dependency's prepare records the
hash before the directory switch. -/
theorem forward_action_change_detection_witness :
    ((fun (_ : String) (_ : List String) => "h1") "proj" hashExcludes
      = cacheGet [("dep1", "h1")] "dep1") ∧
    (Dependency.build (fun _ _ => "h1") "wd" none
        { id := "dep1", localPath := "proj", cache := [("dep1", "h1")] } false
      = ({ id := "dep1", localPath := "proj", cache := [("dep1", "h1")] }, [], none) ∧
    (∀ (d' : DepState) (force : Bool) (cur : String) (d2 : DepState)
        (evs : List DepEvent),
      Dependency.prepare (fun _ _ => "h1") "wd" d' force = (cur, d2, evs) →
      evs ≠ [] →
      evs = [DepEvent.recordHash d'.id ((fun (_ : String) (_ : List String) => "h1")
               d'.localPath hashExcludes),
             DepEvent.chdir d'.localPath])) :=
  ⟨by decide,
    forward_action_change_detection (fun _ _ => "h1") "wd" none
      { id := "dep1", localPath := "proj", cache := [("dep1", "h1")] } (by decide)⟩

/-- C8 (counterexample): Command is an orchestration entry point, yet with a
loaded configuration declaring zero dependencies it is not a silent no-op: the
guarded handleDependencies call performs nothing, no action is invoked, so the
found flag stays false and Command returns the non-nil error
"couldn't find dependency dep1" (dependency.go lines 145-147). -/
theorem command_not_silent_counterexample :
    noDependencies (some (some [])) = true ∧
    commandModel (some (some [])) (fun _ => Except.ok exampleGraph) "root"
        (fun id => id) (fun _ => none) (fun _ => true) "dep1" (fun _ => true)
      = some "couldn't find dependency dep1" := by
  refine ⟨by decide, by decide⟩

/-- C8 (amended): when the manager's configuration handle is nil, the loaded
configuration is nil, or zero dependencies are declared, handleDependencies —
and with it the list-returning entry points (resolve, build, deploy, render,
purge) — returns a nil list and nil error without invoking the resolver, the
scheduler or any action, and UpdateAll likewise returns nil without resolving;
the Command entry point's underlying handleDependencies call equally performs
nothing and invokes nothing, but Command itself then returns the error
"couldn't find dependency <name>", because only an action invocation can set
its found flag. -/
theorem no_dependencies_noop_except_command (config : Option (Option (List Unit)))
    (resolve : Unit → Except String graph) (resolveU : Unit → Except String Unit)
    (reverse : Bool) (env : OEnv) (isRoot : String → Bool)
    (rootID : String) (nameOf : String → String) (action : String → Option String)
    (dependencyName : String) (foundBy : String → Bool)
    (h : noDependencies config = true) :
    handleDependenciesModel config resolve reverse env isRoot
      = { resolverCalled := false, dependencies := none, err := none,
          executedIDs := [], invokedIDs := [] } ∧
    updateAllModel config resolveU = (false, none) ∧
    commandModel config resolve rootID nameOf action isRoot dependencyName foundBy
      = some ("couldn't find dependency " ++ dependencyName) := by
  have hhd : ∀ (env' : OEnv), handleDependenciesModel config resolve false env' isRoot
      = { resolverCalled := false, dependencies := none, err := none,
          executedIDs := [], invokedIDs := [] } := by
    intro env'
    unfold handleDependenciesModel
    rw [if_pos h]
  refine ⟨?_, ?_, ?_⟩
  · unfold handleDependenciesModel
    rw [if_pos h]
  · unfold updateAllModel
    rw [if_pos h]
  · simp only [commandModel, hhd]
    simp

/-- C8 witness: a loaded configuration with an empty dependency list,
instantiated for all three modelled entry shapes. -/
theorem no_dependencies_noop_except_command_witness :
    noDependencies (some (some [])) = true ∧
    (handleDependenciesModel (some (some [])) (fun _ => Except.ok exampleGraph)
        true envEx (fun _ => true)
      = { resolverCalled := false, dependencies := none, err := none,
          executedIDs := [], invokedIDs := [] } ∧
      updateAllModel (some (some [])) (fun _ => Except.ok ()) = (false, none) ∧
      commandModel (some (some [])) (fun _ => Except.ok exampleGraph) "root"
          (fun id => id) (fun _ => none) (fun _ => true) "dep1" (fun _ => true)
        = some ("couldn't find dependency " ++ "dep1")) :=
  ⟨by decide,
    no_dependencies_noop_except_command (some (some []))
      (fun _ => Except.ok exampleGraph) (fun _ => Except.ok ()) true envEx
      (fun _ => true) "root" (fun id => id) (fun _ => none) "dep1" (fun _ => true)
      (by decide)⟩

end DevspaceDep
